import Mathlib

/-!
Shallow embedding of the dfdx differentiation core (files
src/tensor_ops/impl_max.rs and src/losses.rs) over an ordered field.
Machine floats are modelled as exact field elements; ℚ is used where the
computation is algebraic and ℝ where transcendental functions appear.
Two-dimensional tensors are functions Fin m → Fin n → α, vectors are
Fin n → α.  Transcendental scalar functions (exp, log) are passed as
explicit function parameters so that every definition stays computable;
theorems instantiate them with Real.exp and Real.log.
-/

namespace DfdxModel

section Device

variable {α : Type} [LinearOrderedField α] {m n : ℕ}

/-- Modelled from the spec: the EqAccum accumulation strategy (equality
indicator): the destination cell is overwritten with 1.0 when it equals the
accumulated value and 0.0 otherwise.  The devices module is not under src;
this strategy is named in spec section 4.2 and used by impl_max.rs line 33. -/
def eqAccum (l r : α) : α := if l = r then 1 else 0

/-- Modelled from the spec: the MulAccum accumulation strategy (multiply):
the destination cell is multiplied by the accumulated value.  Used by
impl_max.rs line 37. -/
def mulAccum (l r : α) : α := l * r

/-- Modelled from the spec: DeviceReduce::broadcast_into_no_reset along
axis 0 of a 2-d tensor.  The reduced source vector is broadcast over the
destination shape and combined cell-by-cell with the existing destination
contents by the accumulation strategy; the destination is not reset first
(spec section 4.2, broadcast-into, no-reset variant). -/
def broadcastIntoNoReset0 (accum : α → α → α) (buf : Fin m → Fin n → α)
    (src : Fin n → α) : Fin m → Fin n → α :=
  fun i j => accum (buf i j) (src j)

/-- Maximum of column j of a 2-d tensor with at least one row. -/
def colMax (t : Fin (m + 1) → Fin n → α) (j : Fin n) : α :=
  Finset.univ.sup' ⟨0, Finset.mem_univ 0⟩ fun i => t i j

/-- Modelled from the spec: DeviceReduce::reduce_into with the MaxAccum
strategy along axis 0.  The devices module is not under src; per the spec the
reduce resets the destination to the accumulation identity (IEEE negative
infinity for max, so the caller's zero-initialised buffer r0 is discarded)
and then folds every source element with the max operation; over a field
without a bottom element and with a positive reduced dimension this is the
column maximum. -/
def reduceIntoMax (r0 : Fin n → α) (t : Fin (m + 1) → Fin n → α) :
    Fin n → α :=
  fun j => colMax t j

/-- Modelled from the spec: Device::add, cell-wise in-place addition of one
buffer into another (used by impl_max.rs line 38 to accumulate into the
input gradient entry). -/
def deviceAdd (dst src : Fin m → Fin n → α) : Fin m → Fin n → α :=
  fun i j => dst i j + src i j

end Device

section MaxOp

variable {α : Type} [LinearOrderedField α] {m n : ℕ}

/-- Forward value of max over axis 0 (impl_max.rs lines 29-30): the result
buffer is created zero-initialised and reduce_into with MaxAccum is run over
the source. -/
def maxForward (t : Fin (m + 1) → Fin n → α) : Fin n → α :=
  reduceIntoMax (fun _ => 0) t

/-- Scratch buffer after the forward pass of max (impl_max.rs line 33):
broadcast_into_no_reset with EqAccum writes the equality indicator into the
(owned, hence scratch) source buffer, repurposing it. -/
def maxScratch (t : Fin (m + 1) → Fin n → α) : Fin (m + 1) → Fin n → α :=
  broadcastIntoNoReset0 eqAccum t (maxForward t)

/-- Backward closure of max (impl_max.rs lines 35-39): the upstream gradient
resultGrad is broadcast over the source shape with MulAccum against the
indicator buffer, and the product is added into the input gradient entry
tGrad by Device::add. -/
def maxBackward (t : Fin (m + 1) → Fin n → α)
    (tGrad : Fin (m + 1) → Fin n → α) (resultGrad : Fin n → α) :
    Fin (m + 1) → Fin n → α :=
  deviceAdd tGrad (broadcastIntoNoReset0 mulAccum (maxScratch t) resultGrad)

end MaxOp

section VectorOps

variable {α : Type} [LinearOrderedField α] {n : ℕ}

/-- Elementwise difference, the forward value of sub (spec section 6 lists
sub among the elementwise binary ops; its implementation is not under src,
it is called by losses.rs line 11). -/
def subVec (x y : Fin n → α) : Fin n → α := fun i => x i - y i

/-- Modelled from the spec: the square elementwise op called by losses.rs
line 11 (not under src); squares every element. -/
def squareVec (x : Fin n → α) : Fin n → α := fun i => x i * x i

/-- Modelled from the spec: the mean full reduction (sum divided by element
count) called by losses.rs line 11 (not under src). -/
def meanVec (v : Fin n → α) : α := (∑ i, v i) / (n : α)

/-- Modelled from the spec: backward of the mean full reduction; every input
entry receives upstream divided by the element count. -/
def meanBackwardV (n : ℕ) (g : α) : Fin n → α := fun _ => g / (n : α)

/-- Modelled from the spec: backward of the square elementwise op; the local
derivative of x*x is 2*x, multiplied into the upstream gradient. -/
def squareBackwardV (x : Fin n → α) (g : Fin n → α) : Fin n → α :=
  fun i => 2 * x i * g i

/-- Modelled from the spec: backward of sub with respect to its left operand
is the identity on the upstream gradient. -/
def subBackwardLhs (g : Fin n → α) : Fin n → α := g

/-- Modelled from the spec: backward of the exp elementwise op at recorded
output r; exp is its own derivative so each entry of the upstream gradient
is multiplied by E applied at the corresponding input.  Written against the
recorded forward input values r of exp. -/
def expBackwardV (E : α → α) (r : Fin n → α) (g : Fin n → α) : Fin n → α :=
  fun j => E (r j) * g j

/-- Modelled from the spec: binary_map (not under src, called by losses.rs
lines 71 and 183): elementwise application of a two-argument scalar
function across two equal-shaped buffers. -/
def binaryMapVec (f : α → α → α) (x y : Fin n → α) : Fin n → α :=
  fun i => f (x i) (y i)

end VectorOps

section Losses

variable {α : Type} [LinearOrderedField α] {m n : ℕ}

/-- mse_loss (losses.rs lines 10-12): mean(square(sub(pred, targ))). -/
def mse_loss (pred targ : Fin n → α) : α :=
  meanVec (squareVec (subVec pred targ))

/-- Gradient of mse_loss with respect to pred, composed from the backward
closures of mean, square and sub exactly in reverse recording order with
seed gradient 1 at the scalar output. -/
def mseGrad (pred targ : Fin n → α) : Fin n → α :=
  subBackwardLhs (squareBackwardV (subVec pred targ) (meanBackwardV n 1))

/-- Per-element forward closure f of huber_loss (losses.rs lines 46-52). -/
def huberF (delta : α) (x y : α) : α :=
  if |x - y| < delta then (x - y) ^ 2 * (1 / 2)
  else |x - y| * delta - (1 / 2) * delta * delta

/-- huber_loss (losses.rs lines 45-74): mean of the per-element closure
applied through binary_map. -/
def huber_loss (pred targ : Fin n → α) (delta : α) : α :=
  meanVec (binaryMapVec (huberF delta) pred targ)

/-- Modelled from the spec: div_scalar (not under src, called by losses.rs
line 92) divides a scalar tensor by a scalar. -/
def div_scalar (x s : α) : α := x / s

/-- smooth_l1_loss (losses.rs lines 91-93): huber_loss divided by beta. -/
def smooth_l1_loss (pred targ : Fin n → α) (beta : α) : α :=
  div_scalar (huber_loss pred targ beta) beta

/-- Elementwise binary map over 2-d tensors (same binary_map device
primitive as binaryMapVec, at rank 2). -/
def binaryMapM (f : α → α → α) (x y : Fin m → Fin n → α) :
    Fin m → Fin n → α :=
  fun i j => f (x i j) (y i j)

/-- Modelled from the spec: mean over all axes of a 2-d tensor (sum divided
by total element count), the AllAxes mean reduction used by the losses. -/
def meanAll (t : Fin m → Fin n → α) : α :=
  (∑ i, ∑ j, t i j) / ((m : α) * (n : α))

/-- Per-element forward closure of binary_cross_entropy_with_logits_loss
(losses.rs line 186): logit.max(0.0) - logit * prob +
(1.0 + (-logit.abs()).exp()).ln(). -/
def bceF (E L : α → α) (logit prob : α) : α :=
  max logit 0 - logit * prob + L (1 + E (-|logit|))

/-- binary_cross_entropy_with_logits_loss (losses.rs lines 179-190): mean
over all axes of the stable per-element closure applied through binary_map.
E and L stand for the scalar exp and ln functions. -/
def binary_cross_entropy_with_logits_loss (E L : α → α)
    (logits target_probs : Fin m → Fin n → α) : α :=
  meanAll (binaryMapM (bceF E L) logits target_probs)

/-- Gradient of binary_cross_entropy_with_logits_loss with respect to the
logits: the per-element derivative closure of losses.rs line 187
(1.0 - prob - (1.0 + logit.exp()).recip()) times the mean backward factor
1/(m*n). -/
def bceGradLogits (E : α → α) (logits target_probs : Fin m → Fin n → α) :
    Fin m → Fin n → α :=
  fun i j =>
    (1 - target_probs i j - (1 + E (logits i j))⁻¹) * (1 / ((m : α) * (n : α)))

/-- Gradient of binary_cross_entropy_with_logits_loss with respect to the
target probabilities: the per-element derivative closure of losses.rs line
188 (-logit) times the mean backward factor 1/(m*n). -/
def bceGradTarg (logits : Fin m → Fin n → α) : Fin m → Fin n → α :=
  fun i j => -logits i j * (1 / ((m : α) * (n : α)))

/-- Modelled from the spec: log_softmax along the last axis (not under src,
called by losses.rs line 120); each entry minus the log of the sum of
exponentials over its row. -/
def logSoftmaxRow (E L : α → α) (t : Fin m → Fin n → α) :
    Fin m → Fin n → α :=
  fun i j => t i j - L (∑ k, E (t i k))

/-- Modelled from the spec: negate (not under src, called by losses.rs line
121). -/
def negate (x : α) : α := -x

/-- Modelled from the spec: mul_scalar (not under src, called by losses.rs
line 122). -/
def mul_scalar (x c : α) : α := x * c

/-- cross_entropy_with_logits_loss (losses.rs lines 113-123):
mul_scalar(negate(mean over all axes of log_softmax(logits) * target_probs),
last axis size). -/
def cross_entropy_with_logits_loss (E L : α → α)
    (logits target_probs : Fin m → Fin n → α) : α :=
  mul_scalar
    (negate (meanAll (binaryMapM (fun a b => a * b)
      (logSoftmaxRow E L logits) target_probs)))
    (n : α)

/-- Reference definition following the claim's words, to be compared with
cross_entropy_with_logits_loss: the negated sum over the last axis of
log_softmax(logits) * target_probs, averaged over the remaining axes. -/
def crossEntropyRefSumLastThenMean (E L : α → α)
    (logits target_probs : Fin m → Fin n → α) : α :=
  (∑ i, -(∑ j, logSoftmaxRow E L logits i j * target_probs i j)) / (m : α)

end Losses

section GradientStore

variable {β : Type} [AddCommMonoid β] [Zero β]

/-- Modelled from the spec: gradient-store lookup with lazy zero-initialised
entry creation (spec section 3, gradient store; the gradients module is not
under src).  A store maps tensor identities to optional gradient buffers;
an absent entry reads as the zero buffer. -/
def gradGet (s : ℕ → Option β) (id : ℕ) : β := (s id).getD 0

/-- Modelled from the spec: a gradient-store write; every write is additive
accumulation into the (lazily zero-initialised) entry of the given tensor
identity, never an overwrite. -/
def gradAccum (s : ℕ → Option β) (id : ℕ) (g : β) : ℕ → Option β :=
  fun k => if k = id then some (gradGet s k + g) else s k

/-- The empty gradient store created at the start of a backward pass. -/
def gradEmpty : ℕ → Option β := fun _ => none

end GradientStore

section Scenarios

variable {α : Type} [LinearOrderedField α] {m n : ℕ}

/-- Gradient of mean with respect to its input composed with the gradient of
exp, the upstream gradient reaching the max output in the chain
max then exp then mean with seed gradient 1 (test_max_axis_0_2d,
impl_max.rs lines 82-92, chains r.exp().mean().backward()). -/
def scenarioBGrad (E : α → α) (t : Fin (m + 1) → Fin n → α) :
    Fin (m + 1) → Fin n → α :=
  maxBackward t (fun _ _ => 0)
    (expBackwardV E (maxForward t) (meanBackwardV n 1))

/-- The traced input of end-to-end scenario B (impl_max.rs line 84). -/
def scenarioBInput : Fin 2 → Fin 3 → α :=
  fun i j => ![![1, 2, 2], ![3, -2, 2]] i j

/-- The x input of end-to-end scenario A (losses.rs line 200). -/
def scenarioAX : Fin 5 → α :=
  fun i => ![0.87248087, -0.24252531, -1.0060949, 1.155084, 1.5545048] i

/-- The y input of end-to-end scenario A (losses.rs line 201). -/
def scenarioAY : Fin 5 → α :=
  fun i => ![-0.90954804, -1.0193185, -0.39221755, 2.2524886, 1.3035554] i

/-- The logits of end-to-end scenario C (losses.rs line 332). -/
def scenarioCLogits : Fin 3 → Fin 3 → α :=
  fun i j => ![![100, 100, 100], ![-100, -100, -100], ![-1, 0, 1]] i j

/-- The target probabilities of end-to-end scenario C (losses.rs line 333):
the row (0, 0.5, 1) repeated three times. -/
def scenarioCTargs : Fin 3 → Fin 3 → α :=
  fun i j => ![![0, 1 / 2, 1], ![0, 1 / 2, 1], ![0, 1 / 2, 1]] i j

end Scenarios

section TapeTypes

/-- Modelled from the spec: a tape is an insertion-ordered list of recorded
backward-op identifiers (spec section 3); the ids stand for the closures. -/
abbrev TapeOps : Type := List ℕ

/-- Modelled from the spec: a tensor value together with its tape state,
mirroring the Rust tape type parameter H of every TensorND type: owns = true
models an owned tape (the generic T operand role), owns = false models
NoneTape (the T::NoTape operand role).  A tensor whose type has owns = false
carries no tape data at all, so the restriction to at most one tape per
binary op is enforced by the types, exactly as in the source. -/
structure TTensor (γ : Type) (owns : Bool) : Type where
  data : γ
  tape : cond owns TapeOps Unit

/-- Number of live tapes carried by a tensor, read off from its type. -/
def liveTapes {γ : Type} {owns : Bool} (_ : TTensor γ owns) : ℕ :=
  cond owns 1 0

/-- Modelled from the spec (section 4.5 step 3): when the operand owns a
tape, one recorded backward op is appended to it and the tape moves to the
output; a non-traced operand contributes nothing. -/
def pushOp : (owns : Bool) → cond owns TapeOps Unit → ℕ →
    cond owns TapeOps Unit
  | true, t, op => (show List ℕ from t) ++ [op]
  | false, t, _ => t

/-- Modelled from the spec: binary_map with its Rust signature
binary_map(lhs: T, rhs: T::NoTape, ...) (not under src; the signature is
witnessed by the calls at losses.rs lines 71 and 183): the right operand's
type statically forbids a tape. -/
def binary_mapT {n : ℕ} {b : Bool} (f : ℚ → ℚ → ℚ)
    (lhs : TTensor (Fin n → ℚ) b) (rhs : TTensor (Fin n → ℚ) false) :
    TTensor (Fin n → ℚ) b :=
  ⟨binaryMapVec f lhs.data rhs.data, pushOp b lhs.tape 0⟩

/-- Modelled from the spec: sub(lhs: T, rhs: T::NoTape) (spec section 6;
called at losses.rs line 11). -/
def subT {n : ℕ} {b : Bool} (lhs : TTensor (Fin n → ℚ) b)
    (rhs : TTensor (Fin n → ℚ) false) : TTensor (Fin n → ℚ) b :=
  binary_mapT (fun x y => x - y) lhs rhs

/-- Modelled from the spec: mul(lhs: T, rhs: T::NoTape) (spec section 6;
called at losses.rs line 121). -/
def mulT {n : ℕ} {b : Bool} (lhs : TTensor (Fin n → ℚ) b)
    (rhs : TTensor (Fin n → ℚ) false) : TTensor (Fin n → ℚ) b :=
  binary_mapT (fun x y => x * y) lhs rhs

/-- Modelled from the spec: a differentiable unary elementwise op keeps the
operand's tape state and appends one recorded backward op. -/
def mapUnaryT {n : ℕ} {b : Bool} (f : ℚ → ℚ)
    (t : TTensor (Fin n → ℚ) b) : TTensor (Fin n → ℚ) b :=
  ⟨fun i => f (t.data i), pushOp b t.tape 1⟩

/-- Modelled from the spec: the mean full reduction to a scalar tensor,
keeping the operand's tape state. -/
def meanT {n : ℕ} {b : Bool} (t : TTensor (Fin n → ℚ) b) : TTensor ℚ b :=
  ⟨meanVec t.data, pushOp b t.tape 2⟩

/-- Modelled from the spec: a differentiable unary op on a scalar tensor
(sqrt, negate and friends), keeping the operand's tape state. -/
def scalarUnaryT {b : Bool} (f : ℚ → ℚ) (t : TTensor ℚ b) : TTensor ℚ b :=
  ⟨f t.data, pushOp b t.tape 3⟩

/-- mse_loss with its source signature (losses.rs line 10): pred: T,
targ: T::NoTape. -/
def mse_lossT {n : ℕ} {b : Bool} (pred : TTensor (Fin n → ℚ) b)
    (targ : TTensor (Fin n → ℚ) false) : TTensor ℚ b :=
  meanT (mapUnaryT (fun x => x * x) (subT pred targ))

/-- rmse_loss with its source signature (losses.rs line 18); S models the
scalar sqrt function. -/
def rmse_lossT {n : ℕ} {b : Bool} (S : ℚ → ℚ)
    (pred : TTensor (Fin n → ℚ) b) (targ : TTensor (Fin n → ℚ) false) :
    TTensor ℚ b :=
  scalarUnaryT S (mse_lossT pred targ)

/-- mae_loss with its source signature (losses.rs line 26). -/
def mae_lossT {n : ℕ} {b : Bool} (pred : TTensor (Fin n → ℚ) b)
    (targ : TTensor (Fin n → ℚ) false) : TTensor ℚ b :=
  meanT (mapUnaryT (fun x => |x|) (subT pred targ))

/-- huber_loss with its source signature (losses.rs line 45). -/
def huber_lossT {n : ℕ} {b : Bool} (pred : TTensor (Fin n → ℚ) b)
    (targ : TTensor (Fin n → ℚ) false) (delta : ℚ) : TTensor ℚ b :=
  meanT (binary_mapT (huberF delta) pred targ)

/-- smooth_l1_loss with its source signature (losses.rs line 91). -/
def smooth_l1_lossT {n : ℕ} {b : Bool} (pred : TTensor (Fin n → ℚ) b)
    (targ : TTensor (Fin n → ℚ) false) (beta : ℚ) : TTensor ℚ b :=
  scalarUnaryT (fun x => x / beta) (huber_lossT pred targ beta)

/-- Rank-1 log_softmax (modelled from the spec, as logSoftmaxRow), keeping
the operand's tape state. -/
def logSoftmaxT {n : ℕ} {b : Bool} (E L : ℚ → ℚ)
    (t : TTensor (Fin n → ℚ) b) : TTensor (Fin n → ℚ) b :=
  mapUnaryT id ⟨fun j => t.data j - L (∑ k, E (t.data k)), pushOp b t.tape 1⟩

/-- cross_entropy_with_logits_loss with its source signature (losses.rs
lines 113-116): logits: T, target_probs: T::NoTape; the body mirrors lines
120-122 at rank 1. -/
def cross_entropy_with_logits_lossT {n : ℕ} {b : Bool} (E L : ℚ → ℚ)
    (logits : TTensor (Fin n → ℚ) b)
    (target_probs : TTensor (Fin n → ℚ) false) : TTensor ℚ b :=
  scalarUnaryT (fun x => x * (n : ℚ))
    (scalarUnaryT (fun x => -x)
      (meanT (mulT (logSoftmaxT E L logits) target_probs)))

/-- kl_div_with_logits_loss with its source signature (losses.rs lines
143-146): the sub of line 152 takes the traced probs on the left and the
non-traced ln(target_probs) on the right; the mul of line 151 takes the
non-traced target_probs on the right. -/
def kl_div_with_logits_lossT {n : ℕ} {b : Bool} (E L : ℚ → ℚ)
    (logits : TTensor (Fin n → ℚ) b)
    (target_probs : TTensor (Fin n → ℚ) false) : TTensor ℚ b :=
  scalarUnaryT (fun x => x * (n : ℚ))
    (scalarUnaryT (fun x => -x)
      (meanT (mulT (subT (logSoftmaxT E L logits)
        (mapUnaryT L target_probs)) target_probs)))

/-- binary_cross_entropy_with_logits_loss with its source signature
(losses.rs lines 179-182): logits: T, target_probs: T::NoTape. -/
def binary_cross_entropy_with_logits_lossT {n : ℕ} {b : Bool} (E L : ℚ → ℚ)
    (logits : TTensor (Fin n → ℚ) b)
    (target_probs : TTensor (Fin n → ℚ) false) : TTensor ℚ b :=
  meanT (binary_mapT (bceF E L) logits target_probs)

end TapeTypes

section MaxLemmas

variable {α : Type} [LinearOrderedField α] {m n : ℕ}

lemma maxForward_attained (t : Fin (m + 1) → Fin n → α) (j : Fin n) :
    ∃ i, maxForward t j = t i j := by
  obtain ⟨i, -, hi⟩ :=
    Finset.exists_mem_eq_sup' (⟨0, Finset.mem_univ 0⟩ :
      (Finset.univ : Finset (Fin (m + 1))).Nonempty) fun i => t i j
  exact ⟨i, hi⟩

lemma le_maxForward (t : Fin (m + 1) → Fin n → α) (i : Fin (m + 1))
    (j : Fin n) : t i j ≤ maxForward t j :=
  Finset.le_sup' (fun i => t i j) (Finset.mem_univ i)

lemma colMax_fin_two (t : Fin 2 → Fin n → α) (j : Fin n) :
    colMax t j = max (t 0 j) (t 1 j) := by
  refine le_antisymm (Finset.sup'_le _ _ fun i _ => ?_)
    (max_le (Finset.le_sup' (fun i => t i j) (Finset.mem_univ (0 : Fin 2)))
      (Finset.le_sup' (fun i => t i j) (Finset.mem_univ (1 : Fin 2))))
  fin_cases i
  · exact le_max_left _ _
  · exact le_max_right _ _

lemma maxBackward_zeroInit (t : Fin (m + 1) → Fin n → α) (g : Fin n → α)
    (i : Fin (m + 1)) (j : Fin n) :
    maxBackward t (fun _ _ => 0) g i j
      = if t i j = maxForward t j then g j else 0 := by
  simp only [maxBackward, deviceAdd, broadcastIntoNoReset0, mulAccum,
    maxScratch, eqAccum, zero_add, ite_mul, one_mul, zero_mul]

lemma maxScratch_eq (t : Fin (m + 1) → Fin n → α) (i : Fin (m + 1))
    (j : Fin n) :
    maxScratch t i j = if t i j = maxForward t j then 1 else 0 := rfl

lemma maxBackward_eq (t tGrad : Fin (m + 1) → Fin n → α) (g : Fin n → α)
    (i : Fin (m + 1)) (j : Fin n) :
    maxBackward t tGrad g i j = tGrad i j + maxScratch t i j * g j := rfl

end MaxLemmas

/-- Claim C1 counterexample: for the 2-by-1 input whose two elements are both
2 (so k = 2 elements are tied at the column maximum) and upstream gradient 1,
the backward pass of max writes the full upstream gradient 1 into each tied
element's entry, not upstream/k = 1/2 as the claim states. -/
theorem claim1_counterexample :
    (Finset.univ.filter fun i : Fin 2 =>
        (fun (_ : Fin 2) (_ : Fin 1) => (2 : ℚ)) i 0
          = maxForward (fun (_ : Fin 2) (_ : Fin 1) => (2 : ℚ)) 0).card = 2
    ∧ maxBackward (fun (_ : Fin 2) (_ : Fin 1) => (2 : ℚ))
        (fun _ _ => 0) (fun _ => 1) 0 0 = 1
    ∧ maxBackward (fun (_ : Fin 2) (_ : Fin 1) => (2 : ℚ))
        (fun _ _ => 0) (fun _ => 1) 1 0 = 1
    ∧ (1 : ℚ) ≠ 1 / 2 := by
  have hf : maxForward (fun (_ : Fin 2) (_ : Fin 1) => (2 : ℚ)) 0 = 2 := by
    simp [maxForward, reduceIntoMax, colMax, Finset.sup'_const]
  refine ⟨?_, ?_, ?_, by norm_num⟩
  · simp [hf]
  · simp [maxBackward, deviceAdd, broadcastIntoNoReset0, mulAccum,
      maxScratch, eqAccum, hf]
  · simp [maxBackward, deviceAdd, broadcastIntoNoReset0, mulAccum,
      maxScratch, eqAccum, hf]

/-- Claim C1 (amended): the backward pass of max along the reduced axis gives
every element that attains the column maximum the full upstream gradient for
that output position (independently of how many elements are tied), and every
non-maximal element receives 0. -/
theorem claim1_amended_max_tie_gradient :
    ∀ (m n : ℕ) (t : Fin (m + 1) → Fin n → ℚ) (g : Fin n → ℚ)
      (i : Fin (m + 1)) (j : Fin n),
      maxBackward t (fun _ _ => 0) g i j
        = if t i j = maxForward t j then g j else 0 :=
  fun _ _ t g i j => maxBackward_zeroInit t g i j

/-- Claim C2: the max reduction follows the three recorded steps: (1) the
forward value is the max-accumulation reduction of the source (it is attained
by a source element of the column and bounds every element of the column);
(2) the scratch buffer holds the equality indicator, 1 where the source
element equals the broadcast maximum and 0 otherwise; (3) the backward pass
adds indicator times broadcast upstream gradient into the existing input
gradient entry, never overwriting it. -/
theorem claim2_max_algorithm_steps :
    (∀ (m n : ℕ) (t : Fin (m + 1) → Fin n → ℚ) (j : Fin n),
        (∃ i, maxForward t j = t i j) ∧ ∀ i, t i j ≤ maxForward t j)
    ∧ (∀ (m n : ℕ) (t : Fin (m + 1) → Fin n → ℚ) (i : Fin (m + 1))
        (j : Fin n),
        maxScratch t i j = if t i j = maxForward t j then 1 else 0)
    ∧ (∀ (m n : ℕ) (t tGrad : Fin (m + 1) → Fin n → ℚ) (g : Fin n → ℚ)
        (i : Fin (m + 1)) (j : Fin n),
        maxBackward t tGrad g i j = tGrad i j + maxScratch t i j * g j) :=
  ⟨fun _ _ t j => ⟨maxForward_attained t j, fun i => le_maxForward t i j⟩,
    fun _ _ t i j => maxScratch_eq t i j,
    fun _ _ t tGrad g i j => maxBackward_eq t tGrad g i j⟩

/-- Claim C9: the max reduction ignores the zero-initialised result buffer:
the output is the same for every initial buffer, it is always an element of
the reduced column and an upper bound of it (so it is the true maximum even
when every element is negative), and for the all-negative column
(-1, -2, -3) the output is -1, not 0. -/
theorem claim9_max_ignores_zero_init :
    (∀ (m n : ℕ) (r0 r1 : Fin n → ℚ) (t : Fin (m + 1) → Fin n → ℚ),
        reduceIntoMax r0 t = reduceIntoMax r1 t)
    ∧ (∀ (m n : ℕ) (t : Fin (m + 1) → Fin n → ℚ) (j : Fin n),
        (∃ i, maxForward t j = t i j) ∧ ∀ i, t i j ≤ maxForward t j)
    ∧ maxForward (fun i (_ : Fin 1) => ![(-1 : ℚ), -2, -3] i) 0 = -1 := by
  refine ⟨fun _ _ _ _ _ => rfl,
    fun _ _ t j => ⟨maxForward_attained t j, fun i => le_maxForward t i j⟩,
    by decide⟩

/-- Claim C6: gradient-store writes are additive accumulation into the
lazily zero-initialised entry (never an overwrite), two writes to the same
identity commute, and starting from the empty store the final recorded
gradient after contributions g1 and g2 is g1 + g2 in either execution
order. -/
theorem claim6_gradient_accumulation_commutes :
    (∀ (k : ℕ) (s : ℕ → Option (Fin k → ℚ)) (id : ℕ) (g : Fin k → ℚ),
        gradGet (gradAccum s id g) id = gradGet s id + g)
    ∧ (∀ (k : ℕ) (s : ℕ → Option (Fin k → ℚ)) (id : ℕ) (g1 g2 : Fin k → ℚ),
        gradAccum (gradAccum s id g1) id g2
          = gradAccum (gradAccum s id g2) id g1)
    ∧ (∀ (k : ℕ) (id : ℕ) (g1 g2 : Fin k → ℚ),
        gradGet (gradAccum (gradAccum (gradEmpty) id g1) id g2) id = g1 + g2
        ∧ gradGet (gradAccum (gradAccum (gradEmpty) id g2) id g1) id
            = g1 + g2) := by
  refine ⟨fun k s id g => by simp [gradAccum, gradGet],
    fun k s id g1 g2 => ?_,
    fun k id g1 g2 => ?_⟩
  · funext x
    by_cases hx : x = id
    · subst hx
      simp [gradAccum, gradGet, add_right_comm]
    · simp [gradAccum, hx]
  · constructor
    · simp [gradAccum, gradGet, gradEmpty, add_assoc]
    · simp [gradAccum, gradGet, gradEmpty, add_assoc, add_comm g2 g1]

/-- Claim C8: cross_entropy_with_logits_loss, computed as the negated mean
over all axes of log_softmax(logits) times target_probs multiplied by the
last-axis size, equals the reference of the claim's words, the negated sum
over the last axis averaged over the remaining axes, for every pair of
same-shaped tensors (with positive dimensions) and every scalar exp and log
function. -/
theorem claim8_cross_entropy_factoring :
    ∀ (m n : ℕ) (E L : ℚ → ℚ)
      (logits targ : Fin (m + 1) → Fin (n + 1) → ℚ),
      cross_entropy_with_logits_loss E L logits targ
        = crossEntropyRefSumLastThenMean E L logits targ := by
  intro m n E L logits targ
  unfold cross_entropy_with_logits_loss crossEntropyRefSumLastThenMean
    mul_scalar negate meanAll binaryMapM
  have hm : ((m : ℚ) + 1) ≠ 0 := by positivity
  have hn : ((n : ℚ) + 1) ≠ 0 := by positivity
  rw [Finset.sum_neg_distrib]
  push_cast
  field_simp
  ring

/-- Claim C10: smooth_l1_loss is huber_loss divided by beta, and for positive
beta its value is the mean of the per-element piecewise expression
0.5*(pred-targ)^2/beta where the absolute error is below beta and
abs(pred-targ) - 0.5*beta otherwise. -/
theorem claim10_smooth_l1_is_huber_div_beta :
    ∀ (n : ℕ) (pred targ : Fin (n + 1) → ℚ) (beta : ℚ), 0 < beta →
      smooth_l1_loss pred targ beta = huber_loss pred targ beta / beta
      ∧ smooth_l1_loss pred targ beta
          = meanVec (fun i => if |pred i - targ i| < beta
              then (pred i - targ i) ^ 2 * (1 / 2) / beta
              else |pred i - targ i| - (1 / 2) * beta) := by
  intro n pred targ beta hb
  have hb0 : beta ≠ 0 := ne_of_gt hb
  refine ⟨rfl, ?_⟩
  unfold smooth_l1_loss div_scalar huber_loss meanVec binaryMapVec huberF
  rw [div_right_comm]
  congr 1
  rw [Finset.sum_div]
  refine Finset.sum_congr rfl fun i _ => ?_
  dsimp only
  split_ifs with h
  · ring
  · field_simp
    ring

/-- Witness for claim C10 at the concrete input pred = (1), targ = (0),
beta = 1. -/
theorem claim10_smooth_l1_is_huber_div_beta_witness :
    0 < (1 : ℚ)
    ∧ (smooth_l1_loss (fun _ : Fin (0 + 1) => (1 : ℚ)) (fun _ => 0) 1
          = huber_loss (fun _ : Fin (0 + 1) => (1 : ℚ)) (fun _ => 0) 1 / 1
        ∧ smooth_l1_loss (fun _ : Fin (0 + 1) => (1 : ℚ)) (fun _ => 0) 1
          = meanVec (fun i =>
              if |(fun _ : Fin (0 + 1) => (1 : ℚ)) i - (fun _ => (0 : ℚ)) i| < 1
              then ((fun _ : Fin (0 + 1) => (1 : ℚ)) i
                  - (fun _ => (0 : ℚ)) i) ^ 2 * (1 / 2) / 1
              else |(fun _ : Fin (0 + 1) => (1 : ℚ)) i
                  - (fun _ => (0 : ℚ)) i| - (1 / 2) * 1)) :=
  ⟨by decide,
    claim10_smooth_l1_is_huber_div_beta 0 (fun _ => 1) (fun _ => 0) 1
      (by decide)⟩

lemma sbMax0 : maxForward (scenarioBInput (α := ℝ)) 0 = 3 := by
  show colMax (scenarioBInput (α := ℝ)) 0 = 3
  rw [colMax_fin_two]
  norm_num [scenarioBInput]

lemma sbMax1 : maxForward (scenarioBInput (α := ℝ)) 1 = 2 := by
  show colMax (scenarioBInput (α := ℝ)) 1 = 2
  rw [colMax_fin_two]
  norm_num [scenarioBInput]

lemma sbMax2 : maxForward (scenarioBInput (α := ℝ)) 2 = 2 := by
  show colMax (scenarioBInput (α := ℝ)) 2 = 2
  rw [colMax_fin_two]
  norm_num [scenarioBInput]

lemma exp_two_bounds : 7.389056097 < Real.exp 2 ∧ Real.exp 2 < 7.389056101 := by
  have h2 : Real.exp 2 = Real.exp 1 * Real.exp 1 := by
    rw [← Real.exp_add]; norm_num
  constructor <;> rw [h2] <;>
    nlinarith [Real.exp_one_gt_d9, Real.exp_one_lt_d9]

lemma exp_three_bounds : 20.0855369 < Real.exp 3 ∧ Real.exp 3 < 20.085537 := by
  have h3 : Real.exp 3 = Real.exp 2 * Real.exp 1 := by
    rw [← Real.exp_add]; norm_num
  have h1g := Real.exp_one_gt_d9
  have h1l := Real.exp_one_lt_d9
  have h2b := exp_two_bounds
  constructor <;> rw [h3] <;> nlinarith [h2b.1, h2b.2, h1g, h1l]

/-- Claim C3: end-to-end scenario B: for the input
(1, 2, 2; 3, -2, 2) reduced by max over axis 0 the forward result is
(3, 2, 2); chaining exp then mean and running backward, the non-maximal
entries receive gradient 0 and the maximal entries receive the claimed
single-precision decimals to within 10^-6 (floats are modelled as exact
reals, exp as Real.exp). -/
theorem claim3_scenario_b_max_exp_mean :
    maxForward (scenarioBInput (α := ℝ)) = ![3, 2, 2]
    ∧ scenarioBGrad Real.exp (scenarioBInput (α := ℝ)) 0 0 = 0
    ∧ scenarioBGrad Real.exp (scenarioBInput (α := ℝ)) 1 1 = 0
    ∧ |scenarioBGrad Real.exp (scenarioBInput (α := ℝ)) 0 1 - 2.463019|
        < 1 / 1000000
    ∧ |scenarioBGrad Real.exp (scenarioBInput (α := ℝ)) 0 2 - 2.463019|
        < 1 / 1000000
    ∧ |scenarioBGrad Real.exp (scenarioBInput (α := ℝ)) 1 2 - 2.463019|
        < 1 / 1000000
    ∧ |scenarioBGrad Real.exp (scenarioBInput (α := ℝ)) 1 0 - 6.695179|
        < 1 / 1000000 := by
  have h2b := exp_two_bounds
  have h3b := exp_three_bounds
  refine ⟨?_, ?_, ?_, ?_, ?_, ?_, ?_⟩
  · funext j
    fin_cases j
    · simpa using sbMax0
    · simpa using sbMax1
    · simpa using sbMax2
  · rw [scenarioBGrad, maxBackward_zeroInit, sbMax0]
    norm_num [scenarioBInput]
  · rw [scenarioBGrad, maxBackward_zeroInit, sbMax1]
    norm_num [scenarioBInput]
  · rw [scenarioBGrad, maxBackward_zeroInit]
    rw [if_pos (by rw [sbMax1]; norm_num [scenarioBInput])]
    rw [abs_lt]
    simp only [expBackwardV, meanBackwardV, sbMax1]
    constructor <;> · push_cast; nlinarith [h2b.1, h2b.2]
  · rw [scenarioBGrad, maxBackward_zeroInit]
    rw [if_pos (by rw [sbMax2]; norm_num [scenarioBInput])]
    rw [abs_lt]
    simp only [expBackwardV, meanBackwardV, sbMax2]
    constructor <;> · push_cast; nlinarith [h2b.1, h2b.2]
  · rw [scenarioBGrad, maxBackward_zeroInit]
    rw [if_pos (by rw [sbMax2]; norm_num [scenarioBInput])]
    rw [abs_lt]
    simp only [expBackwardV, meanBackwardV, sbMax2]
    constructor <;> · push_cast; nlinarith [h2b.1, h2b.2]
  · rw [scenarioBGrad, maxBackward_zeroInit]
    rw [if_pos (by rw [sbMax0]; norm_num [scenarioBInput])]
    rw [abs_lt]
    simp only [expBackwardV, meanBackwardV, sbMax0]
    constructor <;> · push_cast; nlinarith [h3b.1, h3b.2]

/-- Claim C4: for the scenario-A inputs, mse_loss computes mean(square(x-y))
and returns the scalar 1.0846305, and the backward pass yields the expected
gradient with respect to x; machine floats are modelled as exact rationals,
so equality with the claimed single-precision decimals holds to within
10^-6. -/
theorem claim4_mse_scenario_a :
    |mse_loss (scenarioAX (α := ℚ)) scenarioAY - 1.0846305| < 1 / 1000000
    ∧ |mseGrad (scenarioAX (α := ℚ)) scenarioAY 0 - 0.7128116| < 1 / 1000000
    ∧ |mseGrad (scenarioAX (α := ℚ)) scenarioAY 1 - 0.31071725| < 1 / 1000000
    ∧ |mseGrad (scenarioAX (α := ℚ)) scenarioAY 2 - (-0.24555098)| < 1 / 1000000
    ∧ |mseGrad (scenarioAX (α := ℚ)) scenarioAY 3 - (-0.43896183)| < 1 / 1000000
    ∧ |mseGrad (scenarioAX (α := ℚ)) scenarioAY 4 - 0.10037976| < 1 / 1000000 := by
  refine ⟨?_, ?_, ?_, ?_, ?_, ?_⟩ <;>
    · rw [abs_lt]
      constructor <;>
        norm_num [mse_loss, mseGrad, meanVec, squareVec, subVec,
          subBackwardLhs, squareBackwardV, meanBackwardV, scenarioAX,
          scenarioAY, Fin.sum_univ_five]

/-- Claim C7: in the tape-typed model mirroring the Rust signatures, the
second operand of every binary differentiable operation (binary_map, sub,
mul, and each two-argument loss of losses.rs) is statically the non-traced
type, so its tape component is trivial and carries no information, the two
operands together carry at most one live tape, and every operation's output
carries exactly as many tapes as its first operand, so no merge of two
tapes can occur. -/
theorem claim7_at_most_one_tape_by_types :
    (∀ (γ : Type) (y1 y2 : TTensor γ false), y1.tape = y2.tape)
    ∧ (∀ (n : ℕ) (b : Bool) (f : ℚ → ℚ → ℚ) (E L S : ℚ → ℚ) (delta : ℚ)
        (x : TTensor (Fin n → ℚ) b) (y : TTensor (Fin n → ℚ) false),
        liveTapes y = 0
        ∧ liveTapes x + liveTapes y ≤ 1
        ∧ liveTapes (binary_mapT f x y) = liveTapes x
        ∧ liveTapes (subT x y) = liveTapes x
        ∧ liveTapes (mulT x y) = liveTapes x
        ∧ liveTapes (mse_lossT x y) = liveTapes x
        ∧ liveTapes (rmse_lossT S x y) = liveTapes x
        ∧ liveTapes (mae_lossT x y) = liveTapes x
        ∧ liveTapes (huber_lossT x y delta) = liveTapes x
        ∧ liveTapes (smooth_l1_lossT x y delta) = liveTapes x
        ∧ liveTapes (cross_entropy_with_logits_lossT E L x y) = liveTapes x
        ∧ liveTapes (kl_div_with_logits_lossT E L x y) = liveTapes x
        ∧ liveTapes (binary_cross_entropy_with_logits_lossT E L x y)
            = liveTapes x) := by
  refine ⟨fun γ y1 y2 => rfl, ?_⟩
  intro n b f E L S delta x y
  cases b <;> simp [liveTapes]

lemma eps100_pos : 0 < Real.log (1 + Real.exp (-100)) :=
  Real.log_pos (by nlinarith [Real.exp_pos (-100 : ℝ)])

lemma eps100_lt : Real.log (1 + Real.exp (-100)) < 1 / 10000000 := by
  have hrw : Real.exp (-100 : ℝ) = Real.exp (-1) ^ (100 : ℕ) := by
    rw [← Real.exp_nat_mul]
    norm_num
  have h2 : Real.exp (-1) < 1 / 2 :=
    lt_trans Real.exp_neg_one_lt_d9 (by norm_num)
  have h3 : Real.exp (-1) ^ (100 : ℕ) < (1 / 2 : ℝ) ^ (100 : ℕ) :=
    pow_lt_pow_left₀ h2 (Real.exp_pos _).le (by norm_num)
  have h6 : ((1 : ℝ) / 2) ^ (100 : ℕ) = 1 / 2 ^ 100 := by
    rw [div_pow]
    norm_num
  have h4 : Real.exp (-100 : ℝ) < 1 / 10000000 := by
    rw [hrw]
    refine lt_trans h3 ?_
    rw [h6]
    rw [div_lt_div_iff₀ (by positivity) (by norm_num)]
    norm_num
  have h5 := Real.log_le_sub_one_of_pos
    (show (0 : ℝ) < 1 + Real.exp (-100) by positivity)
  linarith

set_option maxHeartbeats 1600000 in
lemma log_one_add_exp_neg_one_bounds :
    0.3130 < Real.log (1 + Real.exp (-1))
    ∧ Real.log (1 + Real.exp (-1)) < 0.3135 := by
  have ha1 : (0.36787944116 : ℝ) < Real.exp (-1) := Real.exp_neg_one_gt_d9
  have ha2 : Real.exp (-1) < 0.3678794412 := Real.exp_neg_one_lt_d9
  have hapos : (0 : ℝ) < Real.exp (-1) := Real.exp_pos _
  set a : ℝ := Real.exp (-1) with hadef
  have p2l : (0.135335283228 : ℝ) < a ^ 2 := by nlinarith
  have p2u : a ^ 2 < 0.135335283258 := by nlinarith
  have p3l : (0.049787068363 : ℝ) < a ^ 3 := by nlinarith
  have p3u : a ^ 3 < 0.04978706838 := by nlinarith
  have p4l : (0.018315638886 : ℝ) < a ^ 4 := by nlinarith
  have p4u : a ^ 4 < 0.018315638895 := by nlinarith
  have p5l : (0.006737946998 : ℝ) < a ^ 5 := by nlinarith
  have p5u : a ^ 5 < 0.006737947002 := by nlinarith
  have p6l : (0.002478752176 : ℝ) < a ^ 6 := by nlinarith
  have p6u : a ^ 6 < 0.002478752178 := by nlinarith
  have p7l : (0.000911881965 : ℝ) < a ^ 7 := by nlinarith
  have p7u : a ^ 7 < 0.000911881967 := by nlinarith
  have p8l : (0.000335462627 : ℝ) < a ^ 8 := by nlinarith
  have p8u : a ^ 8 < 0.000335462629 := by nlinarith
  have p9u : a ^ 9 < 0.000123410 := by nlinarith
  have hx : |(-a)| < 1 := by
    rw [abs_neg, abs_of_pos hapos]
    linarith
  have hser := Real.abs_log_sub_add_sum_range_le hx 8
  have hsum : (∑ i ∈ Finset.range 8, (-a) ^ (i + 1) / (i + 1))
      = -(a - a ^ 2 / 2 + a ^ 3 / 3 - a ^ 4 / 4 + a ^ 5 / 5 - a ^ 6 / 6
          + a ^ 7 / 7 - a ^ 8 / 8) := by
    simp only [Finset.sum_range_succ, Finset.sum_range_zero]
    norm_num
    ring
  rw [hsum] at hser
  rw [abs_neg, abs_of_pos hapos] at hser
  have hone : (1 : ℝ) - -a = 1 + a := by ring
  rw [hone] at hser
  have hflip : -(a - a ^ 2 / 2 + a ^ 3 / 3 - a ^ 4 / 4 + a ^ 5 / 5 - a ^ 6 / 6
      + a ^ 7 / 7 - a ^ 8 / 8) + Real.log (1 + a)
      = Real.log (1 + a) - (a - a ^ 2 / 2 + a ^ 3 / 3 - a ^ 4 / 4 + a ^ 5 / 5
          - a ^ 6 / 6 + a ^ 7 / 7 - a ^ 8 / 8) := by ring
  rw [hflip] at hser
  have h9 : a ^ (8 + 1) = a ^ (9 : ℕ) := by norm_num
  rw [h9] at hser
  have hrem : a ^ (9 : ℕ) / (1 - a) < 0.000197 := by
    rw [div_lt_iff₀ (by linarith : (0 : ℝ) < 1 - a)]
    linarith [p9u, ha2]
  have habs := abs_le.1 hser
  constructor
  · linarith [habs.1, habs.2]
  · linarith [habs.1, habs.2]

lemma bceF_at_100 (p : ℝ) :
    bceF Real.exp Real.log 100 p
      = 100 - 100 * p + Real.log (1 + Real.exp (-100)) := by
  unfold bceF
  rw [max_eq_left (by norm_num : (0 : ℝ) ≤ 100),
    abs_of_nonneg (by norm_num : (0 : ℝ) ≤ 100)]

lemma bceF_at_neg100 (p : ℝ) :
    bceF Real.exp Real.log (-100) p
      = 100 * p + Real.log (1 + Real.exp (-100)) := by
  unfold bceF
  rw [max_eq_right (by norm_num : (-100 : ℝ) ≤ 0),
    abs_of_nonpos (by norm_num : (-100 : ℝ) ≤ 0)]
  ring_nf

lemma bceF_at_neg_one :
    bceF Real.exp Real.log (-1) 0 = Real.log (1 + Real.exp (-1)) := by
  unfold bceF
  rw [max_eq_right (by norm_num : (-1 : ℝ) ≤ 0),
    abs_of_nonpos (by norm_num : (-1 : ℝ) ≤ 0)]
  ring_nf

lemma bceF_at_zero :
    bceF Real.exp Real.log 0 (1 / 2) = Real.log 2 := by
  unfold bceF
  norm_num

lemma bceF_at_one :
    bceF Real.exp Real.log 1 1 = Real.log (1 + Real.exp (-1)) := by
  unfold bceF
  rw [max_eq_left (by norm_num : (0 : ℝ) ≤ 1),
    abs_of_nonneg (by norm_num : (0 : ℝ) ≤ 1)]
  ring_nf

lemma scenarioC_loss_eq :
    binary_cross_entropy_with_logits_loss Real.exp Real.log
        (scenarioCLogits (α := ℝ)) scenarioCTargs
      = (300 + 6 * Real.log (1 + Real.exp (-100))
          + 2 * Real.log (1 + Real.exp (-1)) + Real.log 2) / 9 := by
  unfold binary_cross_entropy_with_logits_loss meanAll binaryMapM
    scenarioCLogits scenarioCTargs
  simp only [Fin.sum_univ_three, Matrix.cons_val_zero, Matrix.cons_val_one,
    Matrix.cons_val_two, Matrix.head_cons, Matrix.tail_cons]
  rw [bceF_at_100, bceF_at_100, bceF_at_100, bceF_at_neg100, bceF_at_neg100,
    bceF_at_neg100, bceF_at_neg_one, bceF_at_zero, bceF_at_one]
  push_cast
  ring

/-- Claim C5: end-to-end scenario C: for the extreme logits (rows of 100,
-100 and (-1, 0, 1)) against the target row (0, 0.5, 1) repeated,
binary_cross_entropy_with_logits_loss computed through the numerically
stable per-element reformulation returns 33.479965 (to within 10^-4, floats
being modelled as exact reals), and the backward pass produces well-defined
bounded real gradients for both logits and targets (no overflow occurs in
the stable form: every gradient entry is bounded by 1 and 12
respectively). -/
theorem claim5_scenario_c_bce_stable :
    |binary_cross_entropy_with_logits_loss Real.exp Real.log
        (scenarioCLogits (α := ℝ)) scenarioCTargs - 33.479965| < 1 / 10000
    ∧ (∀ (i : Fin 3) (j : Fin 3),
        |bceGradLogits Real.exp (scenarioCLogits (α := ℝ)) scenarioCTargs i j|
          ≤ 1)
    ∧ (∀ (i : Fin 3) (j : Fin 3),
        |bceGradTarg (scenarioCLogits (α := ℝ)) i j| ≤ 12) := by
  refine ⟨?_, ?_, ?_⟩
  · rw [scenarioC_loss_eq, abs_lt]
    have hL1 := log_one_add_exp_neg_one_bounds
    have hε1 := eps100_pos
    have hε2 := eps100_lt
    have hlog2a := Real.log_two_gt_d9
    have hlog2b := Real.log_two_lt_d9
    constructor <;> linarith [hL1.1, hL1.2]
  · intro i j
    have hp : 0 ≤ scenarioCTargs (α := ℝ) i j
        ∧ scenarioCTargs (α := ℝ) i j ≤ 1 := by
      fin_cases i <;> fin_cases j <;> norm_num [scenarioCTargs]
    have he : 0 < Real.exp (scenarioCLogits (α := ℝ) i j) := Real.exp_pos _
    have hs2 : (1 + Real.exp (scenarioCLogits (α := ℝ) i j))⁻¹ < 1 :=
      inv_lt_one_of_one_lt₀ (by linarith)
    have hs1 : 0 < (1 + Real.exp (scenarioCLogits (α := ℝ) i j))⁻¹ := by
      positivity
    unfold bceGradLogits
    rw [abs_le]
    push_cast
    constructor <;> nlinarith [hp.1, hp.2]
  · intro i j
    fin_cases i <;> fin_cases j <;>
      · unfold bceGradTarg scenarioCLogits
        rw [abs_le]
        push_cast
        constructor <;> norm_num

end DfdxModel
